import Mathlib

/-!
Verification development for the `grip` network monitor.

Each section embeds one component of the Go source as Lean definitions
(pure functions; stateful code becomes explicit state passing) and proves
the stated properties about them.
-/

namespace Grip

/-! ## Direction classifier (internal/capture/capture.go)

`isLocalIP` and `determinePacketDirection` are pure functions of the IP
strings and the result of enumerating local interface addresses.  The
enumeration environment models `net.Interfaces()`: either the whole
enumeration fails (`Except.error`), or it yields a list of interfaces,
each of which either fails its own `Addrs()` call (skipped by the code)
or yields the string forms of its bound addresses. -/

/-- One interface's `Addrs()` result: the string forms (`v.IP.String()`)
of the addresses bound to it, or an error (the code skips such an
interface with `continue`). -/
abbrev AddrsResult := Except Unit (List String)

/-- Result of `net.Interfaces()`: a list of per-interface address
results, or an enumeration error. -/
abbrev IfaceEnum := Except Unit (List AddrsResult)

/-- Models `strings.HasPrefix(ip, "127.") || ip == "::1"`, the loopback
test that opens `isLocalIP`. -/
def isLoopbackString (ip : String) : Bool :=
  List.isPrefixOf "127.".toList ip.toList || ip == "::1"

/-- Embedding of `isLocalIP` (capture.go): loopback strings are local;
otherwise enumerate interfaces (returning `false` if enumeration fails),
skip interfaces whose `Addrs()` call fails, and report whether any bound
address renders to exactly `ip`. -/
def isLocalIP (env : IfaceEnum) (ip : String) : Bool :=
  if isLoopbackString ip then
    true
  else
    match env with
    | .error _ => false
    | .ok ifaces =>
        ifaces.any fun addrsRes =>
          match addrsRes with
          | .error _ => false
          | .ok addrs => addrs.any fun a => a == ip

/-- Embedding of `determinePacketDirection` (capture.go). -/
def determinePacketDirection (env : IfaceEnum) (srcIP dstIP : String) : String :=
  let srcIsLocal := isLocalIP env srcIP
  let dstIsLocal := isLocalIP env dstIP
  if srcIsLocal && dstIsLocal then
    "internal"
  else if srcIsLocal && !dstIsLocal then
    "outgoing"
  else if !srcIsLocal && dstIsLocal then
    "incoming"
  else
    "external"

/-- C1: the direction classifier is total and follows the decision table:
the result is always one of the four direction strings (and, being a
function, it returns exactly one value), and each combination of
src/dst locality yields the row of the decision table. -/
theorem determinePacketDirection_total_and_table (env : IfaceEnum) (src dst : String) :
    determinePacketDirection env src dst ∈
      (["incoming", "outgoing", "internal", "external"] : List String)
    ∧ (isLocalIP env src = true → isLocalIP env dst = true →
        determinePacketDirection env src dst = "internal")
    ∧ (isLocalIP env src = true → isLocalIP env dst = false →
        determinePacketDirection env src dst = "outgoing")
    ∧ (isLocalIP env src = false → isLocalIP env dst = true →
        determinePacketDirection env src dst = "incoming")
    ∧ (isLocalIP env src = false → isLocalIP env dst = false →
        determinePacketDirection env src dst = "external") := by
  unfold determinePacketDirection
  cases hs : isLocalIP env src <;> cases hd : isLocalIP env dst <;> simp

/-- Witness for C1 at a concrete input: with a successfully enumerated
but empty local-address set, a packet between two non-loopback
addresses is classified "external". -/
theorem determinePacketDirection_total_and_table_witness :
    determinePacketDirection (.ok []) "10.0.0.7" "8.8.8.8" = "external" := by
  have h := determinePacketDirection_total_and_table (.ok []) "10.0.0.7" "8.8.8.8"
  exact h.2.2.2.2 (by decide) (by decide)

/-- C3 counterexample: when enumeration of local addresses fails, the
classifier does NOT return "external" for every pair — a loopback
source is still treated as local (the loopback test precedes the
enumeration in `isLocalIP`), so ("127.0.0.1", "8.8.8.8") yields
"outgoing". -/
theorem direction_on_enum_failure_counterexample :
    determinePacketDirection (.error ()) "127.0.0.1" "8.8.8.8" = "outgoing"
    ∧ determinePacketDirection (.error ()) "127.0.0.1" "8.8.8.8" ≠ "external" := by
  constructor
  · decide
  · decide

/-- C3 amended: when enumeration of local interface addresses fails,
`isLocalIP` degrades to exactly the loopback test (prefix "127." or
"::1"); consequently the classifier returns "external" for every
(src, dst) pair in which neither address is a loopback string — but
loopback addresses are still classified as local. -/
theorem direction_on_enum_failure (src dst : String)
    (hs : isLoopbackString src = false) (hd : isLoopbackString dst = false) :
    (∀ ip : String, isLocalIP (.error ()) ip = isLoopbackString ip)
    ∧ determinePacketDirection (.error ()) src dst = "external" := by
  constructor
  · intro ip
    unfold isLocalIP
    cases h : isLoopbackString ip <;> simp [h]
  · unfold determinePacketDirection isLocalIP
    simp [hs, hd]

/-- Witness for C3 amended at a concrete input. -/
theorem direction_on_enum_failure_witness :
    isLoopbackString "10.0.0.7" = false ∧ isLoopbackString "8.8.8.8" = false ∧
    determinePacketDirection (.error ()) "10.0.0.7" "8.8.8.8" = "external" :=
  ⟨by decide, by decide,
    (direction_on_enum_failure "10.0.0.7" "8.8.8.8" (by decide) (by decide)).2⟩

/-! ## Socket table resolver (process package, FindTCPProcess / FindUDPProcess)

The Windows "get extended table" call fills a byte buffer: a 4-byte
little-endian row count followed by packed fixed-size rows (24-byte
`TCPRow`, 12-byte `UDPRow`, all fields 32-bit little-endian).  We embed
the post-call part of the functions: the buffer the call produced is a
parameter (`table : List Nat`, one `Nat < 256` per byte), the admin
probe result is a parameter, and `GetProcessDetails` is an environment
mapping a pid to a result.  The Go expression
`(*[1024]TCPRow)(unsafe.Pointer(&table[4]))[:count:count]` panics at
run time when `count > 1024` (slice bound beyond the array cap), which
the embedding makes explicit as the `panicked` outcome. -/

structure ProcessInfo where
  processID : Nat
  processName : String
  executablePath : String
deriving DecidableEq

/-- Result of `GetProcessDetails` for each pid (OpenProcess or the
image-name query may fail). -/
abbrev ProcEnv := Nat → Except Unit ProcessInfo

inductive ResolverError where
  | adminCheckFailed
  | elevationRequired
  | tableTooSmall
  | noConnections
  | tableIncomplete
  | noMatch
  | processQueryFailed
deriving DecidableEq

/-- Outcome of a resolver call: a Go runtime panic, an error return, or
a found process. -/
inductive ScanOutcome where
  | panicked
  | failed (e : ResolverError)
  | found (info : ProcessInfo)
deriving DecidableEq

/-- Byte `i` of the buffer (reads during the scan are separately proven
to stay inside the buffer). -/
def byteAt (table : List Nat) (i : Nat) : Nat := table.getD i 0

/-- 32-bit little-endian read at byte offset `off`. -/
def readU32 (table : List Nat) (off : Nat) : Nat :=
  byteAt table off + 256 * byteAt table (off + 1) +
    65536 * byteAt table (off + 2) + 16777216 * byteAt table (off + 3)

structure TCPRow where
  state : Nat
  localAddr : Nat
  localPort : Nat
  remoteAddr : Nat
  remotePort : Nat
  processID : Nat
deriving DecidableEq

structure UDPRow where
  localAddr : Nat
  localPort : Nat
  processID : Nat
deriving DecidableEq

/-- Row `i` of the TCP table: 24 packed bytes starting at offset
`4 + 24 * i`. -/
def readTCPRow (table : List Nat) (i : Nat) : TCPRow :=
  let off := 4 + 24 * i
  ⟨readU32 table off, readU32 table (off + 4), readU32 table (off + 8),
    readU32 table (off + 12), readU32 table (off + 16), readU32 table (off + 20)⟩

/-- Row `i` of the UDP table: 12 packed bytes starting at offset
`4 + 12 * i`. -/
def readUDPRow (table : List Nat) (i : Nat) : UDPRow :=
  let off := 4 + 12 * i
  ⟨readU32 table off, readU32 table (off + 4), readU32 table (off + 8)⟩

/-- `(localPort << 8) | (localPort >> 8)` on a `uint16`: the byte-swap
the resolver applies to the caller's host-order port before comparing
with table entries. -/
def bswap16 (p : Nat) : Nat :=
  Nat.lor (p * 256 % 65536) (p / 256)

/-- The value of the 32-bit little-endian local-port field that holds a
16-bit port in network (big-endian) byte order: high byte of `p` first,
low byte of `p` second, upper two bytes zero.  (Spec-side description
of the Windows table layout, for stating C5.) -/
def netOrderPort (p : Nat) : Nat :=
  p / 256 % 256 + 256 * (p % 256)

/-- The TCP row-match condition of `FindTCPProcess` (ports already
byte-swapped; zero caller arguments wildcard their component). -/
def matchesTCPRow (localPort remotePort localAddr remoteAddr : Nat) (row : TCPRow) : Bool :=
  decide (row.localPort = bswap16 localPort) &&
    (decide (remotePort = 0) || decide (row.remotePort = bswap16 remotePort)) &&
    (decide (localAddr = 0) || decide (row.localAddr = localAddr)) &&
    (decide (remoteAddr = 0) || decide (row.remoteAddr = remoteAddr))

/-- The UDP row-match condition of `FindUDPProcess`. -/
def matchesUDPRow (localPort localAddr : Nat) (row : UDPRow) : Bool :=
  decide (row.localPort = bswap16 localPort) &&
    (decide (localAddr = 0) || decide (row.localAddr = localAddr))

/-- Result of the `GetProcessDetails(pid)` call made on a row match:
the found info, or the query error propagated. -/
def detailsOutcome (env : ProcEnv) (pid : Nat) : ScanOutcome :=
  match env pid with
  | .ok info => .found info
  | .error _ => .failed .processQueryFailed

/-- The scan loop `for i := 0; i < count; i++` over TCP rows, starting
at index `i` with `fuel` iterations remaining. -/
def scanTCPAux (env : ProcEnv) (table : List Nat)
    (localPort remotePort localAddr remoteAddr : Nat) : Nat → Nat → ScanOutcome
  | 0, _ => .failed .noMatch
  | fuel + 1, i =>
      if matchesTCPRow localPort remotePort localAddr remoteAddr (readTCPRow table i) then
        detailsOutcome env (readTCPRow table i).processID
      else
        scanTCPAux env table localPort remotePort localAddr remoteAddr fuel (i + 1)

/-- The scan loop over UDP rows. -/
def scanUDPAux (env : ProcEnv) (table : List Nat)
    (localPort localAddr : Nat) : Nat → Nat → ScanOutcome
  | 0, _ => .failed .noMatch
  | fuel + 1, i =>
      if matchesUDPRow localPort localAddr (readUDPRow table i) then
        detailsOutcome env (readUDPRow table i).processID
      else
        scanUDPAux env table localPort localAddr fuel (i + 1)

/-- Embedding of `FindTCPProcess` from the point where the
`GetExtendedTcpTable` call has produced the buffer `table` (the
buffer-growth retry loop wraps the FFI call itself and is external to
the scan).  `adminRes` is the memoized admin probe result:
`.error` when the probe's system call failed, `.ok b` otherwise.
The `% 4294967296` reductions are the `uint32` truncations of
`expectedSize` and `uint32(len(table))` in the Go source. -/
def findTCPProcess (env : ProcEnv) (adminRes : Except Unit Bool) (table : List Nat)
    (localPort remotePort localAddr remoteAddr : Nat) : ScanOutcome :=
  match adminRes with
  | .error _ => .failed .adminCheckFailed
  | .ok false => .failed .elevationRequired
  | .ok true =>
      if table.length < 4 then .failed .tableTooSmall
      else
        let count := readU32 table 0
        if count = 0 then .failed .noConnections
        else if table.length % 4294967296 < (4 + 24 * count) % 4294967296 then
          .failed .tableIncomplete
        else if 1024 < count then .panicked
        else scanTCPAux env table localPort remotePort localAddr remoteAddr count 0

/-- Embedding of `FindUDPProcess` (same shape, 12-byte rows). -/
def findUDPProcess (env : ProcEnv) (adminRes : Except Unit Bool) (table : List Nat)
    (localPort localAddr : Nat) : ScanOutcome :=
  match adminRes with
  | .error _ => .failed .adminCheckFailed
  | .ok false => .failed .elevationRequired
  | .ok true =>
      if table.length < 4 then .failed .tableTooSmall
      else
        let count := readU32 table 0
        if count = 0 then .failed .noConnections
        else if table.length % 4294967296 < (4 + 12 * count) % 4294967296 then
          .failed .tableIncomplete
        else if 1024 < count then .panicked
        else scanUDPAux env table localPort localAddr count 0

/-- Disjoint-range bitwise or is addition: the low `k` bits of
`2 ^ k * a` are zero, so or-ing in `b < 2 ^ k` just adds it. -/
theorem two_pow_mul_lor_eq_add (k : Nat) :
    ∀ a b : Nat, b < 2 ^ k → Nat.lor (2 ^ k * a) b = 2 ^ k * a + b := by
  induction k with
  | zero =>
      intro a b hb
      have hb0 : b = 0 := by omega
      subst hb0
      simp only [pow_zero, one_mul, Nat.add_zero]
      exact Nat.or_zero a
  | succ k ih =>
      intro a b hb
      have hpow : (2 : Nat) ^ (k + 1) = 2 * 2 ^ k := by ring
      have hb2 : b / 2 < 2 ^ k := by omega
      have hsplit : b = Nat.bit (decide (b % 2 = 1)) (b / 2) := by
        conv_lhs => rw [← Nat.bit_decide_mod_two_eq_one_shiftRight_one b]
        rw [Nat.shiftRight_one]
      have ha : 2 ^ (k + 1) * a = Nat.bit false (2 ^ k * a) := by
        rw [Nat.bit_val]
        simp [hpow]
        ring
      have hstep : Nat.lor (2 ^ (k + 1) * a) b
          = Nat.bit (false || decide (b % 2 = 1)) (Nat.lor (2 ^ k * a) (b / 2)) := by
        conv_lhs => rw [ha, hsplit]
        exact Nat.lor_bit false (2 ^ k * a) (decide (b % 2 = 1)) (b / 2)
      rw [hstep, ih a (b / 2) hb2, Bool.false_or, Nat.bit_val]
      have htn : (decide (b % 2 = 1)).toNat = b % 2 := by
        rcases Nat.mod_two_eq_zero_or_one b with h | h <;> simp [h]
      have hmul : 2 ^ (k + 1) * a = 2 * (2 ^ k * a) := by rw [hpow]; ring
      omega

/-- The resolver's `uint16` byte swap agrees with the network-order
field encoding: for a host-order port `p < 2^16`,
`(p << 8) | (p >> 8)` is exactly the value of the table's port field
when that field holds `p` in network byte order. -/
theorem bswap16_eq_netOrderPort (p : Nat) (hp : p < 65536) :
    bswap16 p = netOrderPort p := by
  unfold bswap16 netOrderPort
  have h1 : p * 256 % 65536 = 256 * (p % 256) := by omega
  have key := two_pow_mul_lor_eq_add 8 (p % 256) (p / 256)
  norm_num at key
  rw [h1, key (by omega)]
  omega

/-- With zero local/remote address arguments and remote port zero, the
TCP row match degenerates to the local-port comparison. -/
theorem matchesTCPRow_wildcards (p : Nat) (hp : p < 65536) (row : TCPRow) :
    matchesTCPRow p 0 0 0 row = decide (row.localPort = netOrderPort p) := by
  unfold matchesTCPRow
  rw [bswap16_eq_netOrderPort p hp]
  simp

/-- The TCP scan loop never produces the panic outcome. -/
theorem scanTCPAux_ne_panicked (env : ProcEnv) (table : List Nat)
    (lp rp la ra : Nat) (fuel i : Nat) :
    scanTCPAux env table lp rp la ra fuel i ≠ .panicked := by
  induction fuel generalizing i with
  | zero => simp [scanTCPAux]
  | succ f ih =>
      unfold scanTCPAux
      split
      · unfold detailsOutcome
        split <;> simp
      · exact ih (i + 1)

/-- The UDP scan loop never produces the panic outcome. -/
theorem scanUDPAux_ne_panicked (env : ProcEnv) (table : List Nat)
    (lp la : Nat) (fuel i : Nat) :
    scanUDPAux env table lp la fuel i ≠ .panicked := by
  induction fuel generalizing i with
  | zero => simp [scanUDPAux]
  | succ f ih =>
      unfold scanUDPAux
      split
      · unfold detailsOutcome
        split <;> simp
      · exact ih (i + 1)

/-- The TCP scan returns the details of the first matching row: if some
row within `fuel` steps of `s` matches, the scan starting at `s` stops
at the least such offset and returns `GetProcessDetails` of its pid. -/
theorem scanTCPAux_first_match (env : ProcEnv) (table : List Nat) (lp rp la ra : Nat) :
    ∀ fuel s,
      (∃ d, d < fuel ∧ matchesTCPRow lp rp la ra (readTCPRow table (s + d)) = true) →
      ∃ d, d < fuel ∧ matchesTCPRow lp rp la ra (readTCPRow table (s + d)) = true
        ∧ (∀ e, e < d → matchesTCPRow lp rp la ra (readTCPRow table (s + e)) = false)
        ∧ scanTCPAux env table lp rp la ra fuel s =
            detailsOutcome env (readTCPRow table (s + d)).processID := by
  intro fuel
  induction fuel with
  | zero =>
      intro s h
      obtain ⟨d, hd, _⟩ := h
      omega
  | succ f ih =>
      intro s h
      obtain ⟨d, hd, hm⟩ := h
      by_cases h0 : matchesTCPRow lp rp la ra (readTCPRow table s) = true
      · refine ⟨0, by omega, by simpa using h0, by omega, ?_⟩
        unfold scanTCPAux
        rw [if_pos h0]
        simp
      · have hd0 : d ≠ 0 := by
          intro hdz
          subst hdz
          simp only [Nat.add_zero] at hm
          exact h0 hm
        obtain ⟨d₁, rfl⟩ : ∃ d₁, d = d₁ + 1 := ⟨d - 1, by omega⟩
        have hshift : ∃ e, e < f ∧ matchesTCPRow lp rp la ra (readTCPRow table (s + 1 + e)) = true := by
          refine ⟨d₁, by omega, ?_⟩
          have harith : s + 1 + d₁ = s + (d₁ + 1) := by omega
          rw [harith]
          exact hm
        obtain ⟨j, hj, hjm, hjf, hjs⟩ := ih (s + 1) hshift
        have harj : s + 1 + j = s + (j + 1) := by omega
        refine ⟨j + 1, by omega, by rw [← harj]; exact hjm, ?_, ?_⟩
        · intro e he
          match e with
          | 0 =>
              simp only [Nat.add_zero]
              exact Bool.not_eq_true _ ▸ (by simpa using h0)
          | e₁ + 1 =>
              have hare : s + (e₁ + 1) = s + 1 + e₁ := by omega
              rw [hare]
              exact hjf e₁ (by omega)
        · unfold scanTCPAux
          rw [if_neg h0, ← harj]
          exact hjs

/-- C5: `FindTCPProcess` compares ports after byte-swapping the
caller's host-order 16-bit port.  For every table whose scan runs
(row `i` exists, the size validation passes, and the slice cap is
respected) and whose row `i` has a local-port field holding the 32-bit
network-byte-order encoding of port `p`, a call with local port `p` and
remote port 0 (wildcard) matches that row, and the call returns the
process details of the first row whose local-port field encodes `p`. -/
theorem findTCPProcess_byte_order (env : ProcEnv) (table : List Nat) (p i : Nat)
    (hp : p < 65536)
    (hi : i < readU32 table 0)
    (hcap : readU32 table 0 ≤ 1024)
    (hlen : 4 + 24 * readU32 table 0 ≤ table.length)
    (hlen32 : table.length < 4294967296)
    (hrow : (readTCPRow table i).localPort = netOrderPort p) :
    matchesTCPRow p 0 0 0 (readTCPRow table i) = true
    ∧ ∃ j, j ≤ i ∧ (readTCPRow table j).localPort = netOrderPort p
        ∧ (∀ e, e < j → (readTCPRow table e).localPort ≠ netOrderPort p)
        ∧ findTCPProcess env (.ok true) table p 0 0 0 =
            detailsOutcome env (readTCPRow table j).processID := by
  have hmatch : matchesTCPRow p 0 0 0 (readTCPRow table i) = true := by
    rw [matchesTCPRow_wildcards p hp]
    simpa using hrow
  refine ⟨hmatch, ?_⟩
  have hex : ∃ d, d < readU32 table 0
      ∧ matchesTCPRow p 0 0 0 (readTCPRow table (0 + d)) = true := by
    exact ⟨i, hi, by simpa using hmatch⟩
  obtain ⟨j, hj, hjm, hjf, hjs⟩ :=
    scanTCPAux_first_match env table p 0 0 0 (readU32 table 0) 0 hex
  have hji : j ≤ i := by
    by_contra hcon
    have hlt : i < j := by omega
    have hff := hjf i hlt
    rw [Nat.zero_add, hmatch] at hff
    simp at hff
  refine ⟨j, hji, ?_, ?_, ?_⟩
  · have := hjm
    rw [Nat.zero_add, matchesTCPRow_wildcards p hp] at this
    exact of_decide_eq_true this
  · intro e he
    have := hjf e he
    rw [Nat.zero_add, matchesTCPRow_wildcards p hp] at this
    intro hcon
    rw [hcon] at this
    simp at this
  · have hrun : findTCPProcess env (.ok true) table p 0 0 0 =
        scanTCPAux env table p 0 0 0 (readU32 table 0) 0 := by
      unfold findTCPProcess
      have hc0 : readU32 table 0 ≠ 0 := by omega
      have hl4 : ¬ table.length < 4 := by omega
      have hsz : ¬ table.length % 4294967296 < (4 + 24 * readU32 table 0) % 4294967296 := by
        have hm1 : table.length % 4294967296 = table.length := Nat.mod_eq_of_lt hlen32
        have hm2 : (4 + 24 * readU32 table 0) % 4294967296 = 4 + 24 * readU32 table 0 :=
          Nat.mod_eq_of_lt (by omega)
        omega
      have hnc : ¬ 1024 < readU32 table 0 := by omega
      simp only [if_neg hl4, if_neg hc0, if_neg hsz, if_neg hnc]
    rw [hrun, hjs, Nat.zero_add]

/-- A one-row TCP table whose row has local-port field holding 443 in
network byte order (low-endian dword value `0xBB01 = 47873`, bytes
`[1, 187]`) and pid 42. -/
def tcpTable443 : List Nat :=
  [1, 0, 0, 0,
   0, 0, 0, 0,
   0, 0, 0, 0,
   1, 187, 0, 0,
   0, 0, 0, 0,
   0, 0, 0, 0,
   42, 0, 0, 0]

/-- A process-details environment that succeeds on every pid. -/
def sampleProcEnv : ProcEnv :=
  fun pid => .ok ⟨pid, "sample.exe", "C:\\sample.exe"⟩

/-- Witness for C5: `find_tcp(443, 0)` on the synthetic table returns
the process details of the row's pid 42. -/
theorem findTCPProcess_byte_order_witness :
    findTCPProcess sampleProcEnv (.ok true) tcpTable443 443 0 0 0 =
      .found ⟨42, "sample.exe", "C:\\sample.exe"⟩ := by
  obtain ⟨hm, j, hji, hjp, hjf, hjr⟩ :=
    findTCPProcess_byte_order sampleProcEnv tcpTable443 443 0
      (by decide) (by decide) (by decide) (by decide) (by decide) (by decide)
  have hj0 : j = 0 := Nat.le_zero.mp hji
  subst hj0
  rw [hjr]
  rfl

/-- C6: without elevation (the admin check reports `false`), both
resolver functions fail with the elevation error for every input — the
result does not depend on the socket table or on the process-details
environment, and no `ProcessInfo` is returned. -/
theorem resolver_requires_elevation (env : ProcEnv) (table : List Nat)
    (lp rp la ra ulp ula : Nat) :
    findTCPProcess env (.ok false) table lp rp la ra = .failed .elevationRequired
    ∧ findUDPProcess env (.ok false) table ulp ula = .failed .elevationRequired :=
  ⟨rfl, rfl⟩

/-- Unfolding of the elevated TCP resolver into its validation chain. -/
theorem findTCPProcess_ok_true (env : ProcEnv) (table : List Nat)
    (lp rp la ra : Nat) :
    findTCPProcess env (.ok true) table lp rp la ra =
      if table.length < 4 then .failed .tableTooSmall
      else if readU32 table 0 = 0 then .failed .noConnections
      else if table.length % 4294967296 < (4 + 24 * readU32 table 0) % 4294967296 then
        .failed .tableIncomplete
      else if 1024 < readU32 table 0 then .panicked
      else scanTCPAux env table lp rp la ra (readU32 table 0) 0 := rfl

/-- Unfolding of the elevated UDP resolver into its validation chain. -/
theorem findUDPProcess_ok_true (env : ProcEnv) (table : List Nat)
    (lp la : Nat) :
    findUDPProcess env (.ok true) table lp la =
      if table.length < 4 then .failed .tableTooSmall
      else if readU32 table 0 = 0 then .failed .noConnections
      else if table.length % 4294967296 < (4 + 12 * readU32 table 0) % 4294967296 then
        .failed .tableIncomplete
      else if 1024 < readU32 table 0 then .panicked
      else scanUDPAux env table lp la (readU32 table 0) 0 := rfl

/-- A TCP table buffer that passes the size validation with a row count
of 1025: 4 count bytes (1025 = `[1, 4, 0, 0]` little-endian) followed by
1025 zeroed 24-byte rows. -/
def oversizedTCPTable : List Nat :=
  1 :: 4 :: 0 :: 0 :: List.replicate 24600 0

/-- The analogous UDP buffer: 1025 zeroed 12-byte rows. -/
def oversizedUDPTable : List Nat :=
  1 :: 4 :: 0 :: 0 :: List.replicate 12300 0

/-- A process-details environment that fails on every pid. -/
def emptyProcEnv : ProcEnv := fun _ => .error ()

/-- C10 counterexample: a buffer that passes the size validation
(`len = 4 + count * sizeof(Row)` exactly) with `count = 1025` makes the
row scan panic — the slice of the `*[1024]Row` array pointer with high
bound 1025 is a Go runtime panic, so the claim fails for counts greater
than 1024. -/
theorem resolver_scan_panics_counterexample :
    readU32 oversizedTCPTable 0 = 1025
    ∧ 4 + 24 * readU32 oversizedTCPTable 0 ≤ oversizedTCPTable.length
    ∧ findTCPProcess emptyProcEnv (.ok true) oversizedTCPTable 443 0 0 0 = .panicked
    ∧ readU32 oversizedUDPTable 0 = 1025
    ∧ 4 + 12 * readU32 oversizedUDPTable 0 ≤ oversizedUDPTable.length
    ∧ findUDPProcess emptyProcEnv (.ok true) oversizedUDPTable 53 0 = .panicked := by
  have hct : readU32 oversizedTCPTable 0 = 1025 := rfl
  have hcu : readU32 oversizedUDPTable 0 = 1025 := rfl
  have hlt : oversizedTCPTable.length = 24604 := by
    unfold oversizedTCPTable
    rw [List.length_cons, List.length_cons, List.length_cons, List.length_cons,
      List.length_replicate]
  have hlu : oversizedUDPTable.length = 12304 := by
    unfold oversizedUDPTable
    rw [List.length_cons, List.length_cons, List.length_cons, List.length_cons,
      List.length_replicate]
  refine ⟨hct, by rw [hct, hlt], ?_, hcu, by rw [hcu, hlu], ?_⟩
  · rw [findTCPProcess_ok_true, hlt]
    simp only [hct]
    norm_num
  · rw [findUDPProcess_ok_true, hlu]
    simp only [hcu]
    norm_num

/-- Byte offsets read when decoding TCP row `i` (24 bytes starting at
offset `4 + 24 * i`). -/
def tcpRowReadOffsets (i : Nat) : List Nat :=
  (List.range 24).map fun k => 4 + 24 * i + k

/-- Byte offsets read when decoding UDP row `i`. -/
def udpRowReadOffsets (i : Nat) : List Nat :=
  (List.range 12).map fun k => 4 + 12 * i + k

/-- C10 amended: for row counts up to 1024 the claim holds — the scans
of `FindTCPProcess` and `FindUDPProcess` complete without a runtime
panic, and when the buffer is at least `4 + count * sizeof(Row)` bytes
every byte offset read while decoding a scanned row lies inside the
buffer.  (For counts above 1024 the slice of the `*[1024]Row` array
pointer panics; see the counterexample.) -/
theorem resolver_scan_safe_upto_1024 (env : ProcEnv) (adminRes : Except Unit Bool)
    (table : List Nat) (lp rp la ra ulp ula : Nat)
    (hcap : readU32 table 0 ≤ 1024) :
    findTCPProcess env adminRes table lp rp la ra ≠ .panicked
    ∧ findUDPProcess env adminRes table ulp ula ≠ .panicked
    ∧ (4 + 24 * readU32 table 0 ≤ table.length →
        ∀ i < readU32 table 0, ∀ o ∈ tcpRowReadOffsets i, o < table.length)
    ∧ (4 + 12 * readU32 table 0 ≤ table.length →
        ∀ i < readU32 table 0, ∀ o ∈ udpRowReadOffsets i, o < table.length) := by
  refine ⟨?_, ?_, ?_, ?_⟩
  · rcases adminRes with e | b
    · simp [findTCPProcess]
    · cases b
      · simp [findTCPProcess]
      · rw [findTCPProcess_ok_true]
        split
        · simp
        · split
          · simp
          · split
            · simp
            · rw [if_neg (by omega)]
              exact scanTCPAux_ne_panicked env table lp rp la ra _ 0
  · rcases adminRes with e | b
    · simp [findUDPProcess]
    · cases b
      · simp [findUDPProcess]
      · rw [findUDPProcess_ok_true]
        split
        · simp
        · split
          · simp
          · split
            · simp
            · rw [if_neg (by omega)]
              exact scanUDPAux_ne_panicked env table ulp ula _ 0
  · intro hlen i hi o ho
    simp only [tcpRowReadOffsets, List.mem_map, List.mem_range] at ho
    obtain ⟨k, hk, rfl⟩ := ho
    omega
  · intro hlen i hi o ho
    simp only [udpRowReadOffsets, List.mem_map, List.mem_range] at ho
    obtain ⟨k, hk, rfl⟩ := ho
    omega

/-- Witness for C10 amended at a concrete input: the one-row table of
the C5 witness has count 1, and the scan neither panics nor reads
outside the 28-byte buffer. -/
theorem resolver_scan_safe_upto_1024_witness :
    readU32 tcpTable443 0 ≤ 1024
    ∧ findTCPProcess sampleProcEnv (.ok true) tcpTable443 443 0 0 0 ≠ .panicked := by
  refine ⟨by decide, ?_⟩
  exact (resolver_scan_safe_upto_1024 sampleProcEnv (.ok true) tcpTable443
    443 0 0 0 53 0 (by decide)).1

/-! ## Privilege gate (util package, IsRunningAsAdmin)

`IsRunningAsAdmin` guards the underlying system probe with a
`sync.Once` over package-level variables `isAdminProcess` and
`adminCheckErr`.  The state is made explicit, together with an
instrumentation counter of how many times the underlying system check
has actually run.  The system check itself is an environment: a
function from the invocation index to that attempt's result, so that a
hypothetical second attempt could return something different — the
theorems show it is never consulted again. -/

/-- The package-level state backing `IsRunningAsAdmin`: the
`sync.Once` flag, the two memoized variables, and (instrumentation) the
number of times the underlying system check has run. -/
structure AdminState where
  once : Bool
  isAdminProcess : Bool
  adminCheckErr : Option Nat
deriving DecidableEq

/-- Process start: the check has not run. -/
def initialAdminState : AdminState := ⟨false, false, none⟩

/-- One call to `IsRunningAsAdmin`: if the `sync.Once` has fired,
return the memoized pair without touching the system; otherwise run the
underlying check (attempt number = how many invocations happened so
far), record its result (`isAdminProcess` keeps its zero value `false`
when the check errors, exactly as in the Go body), and mark the once
flag.  Returns the `(bool, error)` pair and the new state together with
the updated invocation count. -/
def isRunningAsAdmin (sysCheck : Nat → Except Nat Bool)
    (s : AdminState) (invocations : Nat) :
    (Bool × Option Nat) × AdminState × Nat :=
  if s.once then
    ((s.isAdminProcess, s.adminCheckErr), s, invocations)
  else
    match sysCheck invocations with
    | .error e =>
        ((false, some e), ⟨true, false, some e⟩, invocations + 1)
    | .ok b =>
        ((b, none), ⟨true, b, none⟩, invocations + 1)

/-- State and invocation count after `n` calls from process start. -/
def adminStateAfter (sysCheck : Nat → Except Nat Bool) : Nat → AdminState × Nat
  | 0 => (initialAdminState, 0)
  | n + 1 =>
      let p := adminStateAfter sysCheck n
      (isRunningAsAdmin sysCheck p.1 p.2).2

/-- The `(bool, error)` pair returned by call number `n + 1` (zero
indexed: `adminCallResult sysCheck 0` is the first call). -/
def adminCallResult (sysCheck : Nat → Except Nat Bool) (n : Nat) : Bool × Option Nat :=
  (isRunningAsAdmin sysCheck (adminStateAfter sysCheck n).1 (adminStateAfter sysCheck n).2).1

/-- The state after the first call, by cases on the first attempt. -/
theorem adminStateAfter_one (sysCheck : Nat → Except Nat Bool) :
    adminStateAfter sysCheck 1 =
      (match sysCheck 0 with
       | .error e => (⟨true, false, some e⟩, 1)
       | .ok b => (⟨true, b, none⟩, 1)) := by
  cases h : sysCheck 0 <;>
    simp [adminStateAfter, initialAdminState, isRunningAsAdmin, h]

/-- After the first call the `sync.Once` flag is set. -/
theorem adminStateAfter_one_once (sysCheck : Nat → Except Nat Bool) :
    (adminStateAfter sysCheck 1).1.once = true := by
  rw [adminStateAfter_one]
  cases h : sysCheck 0 <;> simp [h]

/-- After the first call the state is a fixed point of further calls. -/
theorem adminStateAfter_stable (sysCheck : Nat → Except Nat Bool) (n : Nat) :
    adminStateAfter sysCheck (n + 1) = adminStateAfter sysCheck 1 := by
  induction n with
  | zero => rfl
  | succ m ih =>
      show (isRunningAsAdmin sysCheck (adminStateAfter sysCheck (m + 1)).1
        (adminStateAfter sysCheck (m + 1)).2).2 = adminStateAfter sysCheck 1
      rw [ih]
      unfold isRunningAsAdmin
      rw [if_pos (adminStateAfter_one_once sysCheck)]

/-- C7: the elevation probe is memoized.  For every behavior of the
underlying system check: after any number of calls the check has run at
most once (exactly once as soon as one call happened), and every call
returns exactly the same `(bool, error)` pair as the first call —
including when the first attempt failed with an error, since `sysCheck`
is arbitrary and may error on attempt 0. -/
theorem isRunningAsAdmin_memoized (sysCheck : Nat → Except Nat Bool) (n : Nat) :
    adminCallResult sysCheck n = adminCallResult sysCheck 0
    ∧ (adminStateAfter sysCheck n).2 ≤ 1
    ∧ (adminStateAfter sysCheck (n + 1)).2 = 1 := by
  have hinv1 : (adminStateAfter sysCheck 1).2 = 1 := by
    rw [adminStateAfter_one]
    cases h : sysCheck 0 <;> simp [h]
  have hres1 : ∀ m : Nat, adminCallResult sysCheck (m + 1) = adminCallResult sysCheck 0 := by
    intro m
    unfold adminCallResult
    rw [adminStateAfter_stable sysCheck m, adminStateAfter_one]
    cases h : sysCheck 0 <;>
      simp [isRunningAsAdmin, adminStateAfter, initialAdminState, h]
  refine ⟨?_, ?_, ?_⟩
  · match n with
    | 0 => rfl
    | m + 1 => exact hres1 m
  · match n with
    | 0 => exact Nat.zero_le 1
    | m + 1 =>
        rw [adminStateAfter_stable sysCheck m, hinv1]
  · rw [adminStateAfter_stable sysCheck n, hinv1]

/-! ## Process identity lookup (GetProcessDetails)

`GetProcessDetails` reads the image path into a 260-slot UTF-16 buffer
(`MAX_PATH = 260`); `QueryFullProcessImageName` writes the path into
the front of the buffer, NUL-terminates it, and sets `length` to the
number of characters excluding the NUL.  The code then builds
`ExecutablePath` from `path[:length]` and `ProcessName` from
`path[MAX_PATH-length:]`.  Code units are modeled as `Nat` (0 is NUL);
`windows.UTF16ToString` stops at the first NUL. -/

/-- `windows.UTF16ToString`: decode up to the first NUL. -/
def utf16ToString (units : List Nat) : List Nat :=
  units.takeWhile fun c => c ≠ 0

/-- The filled `path` buffer after `QueryFullProcessImageName`: the
image path in front, the rest of the 260 slots zero. -/
def imageNameBuffer (path : List Nat) : List Nat :=
  path ++ List.replicate (260 - path.length) 0

/-- `ExecutablePath` as computed by the code:
`UTF16ToString(path[:length])`. -/
def getProcessDetailsPath (path : List Nat) : List Nat :=
  utf16ToString ((imageNameBuffer path).take path.length)

/-- `ProcessName` as computed by the code:
`UTF16ToString(path[MAX_PATH-length:])`. -/
def getProcessDetailsName (path : List Nat) : List Nat :=
  utf16ToString ((imageNameBuffer path).drop (260 - path.length))

/-- The last path component (the file name after the final `\`
separator, code 92) — the short name the spec prescribes. -/
def lastPathComponent (path : List Nat) : List Nat :=
  (path.reverse.takeWhile fun c => c ≠ 92).reverse

/-- C8: the short name computed by `GetProcessDetails` is NOT the last
path component.  For any pid whose image path is shorter than half the
260-slot buffer and free of NULs, `path[260-length:]` lies entirely in
the zeroed tail, so the computed `ProcessName` is empty.  Evaluated at
the failing input `"C:\\curl.exe"` (UTF-16 code units): the code
produces the empty string while the last path component is
`"curl.exe"`; the executable path itself is returned correctly. -/
theorem getProcessDetails_shortName_bug :
    getProcessDetailsName [67, 58, 92, 99, 117, 114, 108, 46, 101, 120, 101] = []
    ∧ lastPathComponent [67, 58, 92, 99, 117, 114, 108, 46, 101, 120, 101] =
        [99, 117, 114, 108, 46, 101, 120, 101]
    ∧ getProcessDetailsName [67, 58, 92, 99, 117, 114, 108, 46, 101, 120, 101] ≠
        lastPathComponent [67, 58, 92, 99, 117, 114, 108, 46, 101, 120, 101]
    ∧ getProcessDetailsPath [67, 58, 92, 99, 117, 114, 108, 46, 101, 120, 101] =
        [67, 58, 92, 99, 117, 114, 108, 46, 101, 120, 101] := by
  refine ⟨?_, by decide, by decide, ?_⟩
  · unfold getProcessDetailsName imageNameBuffer utf16ToString
    decide
  · unfold getProcessDetailsPath imageNameBuffer utf16ToString
    decide

/-! ## Aggregator and persistence (internal/capture/stats.go,
internal/database/database.go)

The per-application aggregator is a `sync.Map` keyed by a string
(`key := processName`), modeled as an association list in insertion
order.  `sync.Map` counters (`PacketsByProtocol`) and the destination
set (`Destinations`, keys of a `sync.Map`) are association lists /
no-duplicate insertion lists.  The time-based asynchronous flush
trigger inside `updateAppStats` (`LastSavedToDB` / `saveInterval`)
schedules a DB write and mutates no counter, so it is elided; flushing
is modeled by the explicit `saveAppStatsToDB` / `saveAllStatsToDB`
calls.  The database's `application_stats` table is a list of rows;
timestamps are not modeled.  `StoreProtocolStats` reads
`application_stats` and writes only the separate `protocol_stats`
table, so it does not affect the rows below. -/

/-- In-memory `ApplicationStats` (stats.go). -/
structure AppStats where
  processID : Nat
  processName : String
  processPath : String
  totalPackets : Nat
  totalBytes : Nat
  packetsByProtocol : List (String × Nat)
  destinations : List String
deriving DecidableEq

/-- `LoadOrStore protocol 0` followed by `Store protocol (value+1)`:
insert-or-increment on the protocol histogram. -/
def bumpProtocol (m : List (String × Nat)) (protocol : String) : List (String × Nat) :=
  if m.any fun kv => kv.1 == protocol then
    m.map fun kv => if kv.1 == protocol then (kv.1, kv.2 + 1) else kv
  else
    m ++ [(protocol, 1)]

/-- `Destinations.Store(destination, true)`: set insert keyed by the
string (a `sync.Map` keeps one entry per key). -/
def insertDestination (ds : List String) (destination : String) : List String :=
  if destination ∈ ds then ds else ds ++ [destination]

/-- The mutations `updateAppStats` applies to an entry: bump the two
counters, bump the protocol histogram, and insert the destination when
it is non-empty. -/
def applyAppUpdate (a : AppStats) (protocol : String) (bytes : Nat)
    (destination : String) : AppStats :=
  { a with
    totalPackets := a.totalPackets + 1
    totalBytes := a.totalBytes + bytes
    packetsByProtocol := bumpProtocol a.packetsByProtocol protocol
    destinations :=
      if destination = "" then a.destinations
      else insertDestination a.destinations destination }

/-- The fresh entry `LoadOrStore` creates on first sight of a key. -/
def newAppStats (processID : Nat) (processName processPath : String) : AppStats :=
  ⟨processID, processName, processPath, 0, 0, [], []⟩

/-- The aggregator's `ApplicationStats` map: keys in insertion order. -/
abbrev AppMap := List (String × AppStats)

/-- Embedding of `updateAppStats` (stats.go): skip empty process
names; `key := processName`; `LoadOrStore` the entry; then apply the
counter / histogram / destination updates in place. -/
def updateAppStats (m : AppMap) (processID : Nat)
    (processName processPath protocol : String) (bytes : Nat)
    (destination : String) : AppMap :=
  if processName = "" then m
  else
    let key := processName
    match m.lookup key with
    | some _ =>
        m.map fun kv =>
          if kv.1 = key then (kv.1, applyAppUpdate kv.2 protocol bytes destination)
          else kv
    | none =>
        m ++ [(key, applyAppUpdate (newAppStats processID processName processPath)
                protocol bytes destination)]

/-- One `updateAppStats` call's arguments. -/
structure AppUpdate where
  processID : Nat
  processName : String
  processPath : String
  protocol : String
  bytes : Nat
  destination : String

/-- A sequence of `updateAppStats` calls applied in order. -/
def runAppUpdates (m : AppMap) (calls : List AppUpdate) : AppMap :=
  calls.foldl
    (fun acc c => updateAppStats acc c.processID c.processName c.processPath
      c.protocol c.bytes c.destination) m

/-- A persisted `application_stats` row (timestamps not modeled; the
`destinations` column holds the JSON array payload, modeled as the list
of strings it serializes). -/
structure AppRow where
  processID : Nat
  processName : String
  processPath : String
  totalPackets : Nat
  totalBytes : Nat
  destinations : List String
deriving DecidableEq

/-- The persistence store: the initialization flag behind
`IsInitialized` and the `application_stats` rows in insertion order. -/
structure DBState where
  initialized : Bool
  appRows : List AppRow
deriving DecidableEq

/-- The SQL `WHERE process_name = ? AND process_id = ?` match. -/
def appRowKeyMatches (name : String) (pid : Nat) (r : AppRow) : Bool :=
  r.processName == name && r.processID == pid

/-- The row values written by the UPDATE arm of `StoreAppStats`:
absolute totals and destinations; `process_path = COALESCE(?, path)`
with a Go string parameter (never SQL NULL) always takes the
parameter. -/
def updateAppRow (r : AppRow) (s : AppRow) : AppRow :=
  { r with
    totalPackets := s.totalPackets
    totalBytes := s.totalBytes
    destinations := s.destinations
    processPath := s.processPath }

/-- Embedding of `StoreAppStats` (database.go): fail when the store is
not initialized; UPDATE every row matching `(process_name,
process_id)`; if zero rows were affected, INSERT the row. -/
def storeAppStats (db : DBState) (s : AppRow) : DBState :=
  if db.initialized = false then db
  else if db.appRows.any fun r => appRowKeyMatches s.processName s.processID r then
    { db with
      appRows := db.appRows.map fun r =>
        if appRowKeyMatches s.processName s.processID r then updateAppRow r s else r }
  else
    { db with appRows := db.appRows ++ [s] }

/-- The DB row built from an in-memory entry in `saveAppStatsToDB`:
atomic loads of the counters and the collected destination set
marshaled as the JSON array payload. -/
def dbStatsOf (a : AppStats) : AppRow :=
  ⟨a.processID, a.processName, a.processPath, a.totalPackets, a.totalBytes,
    a.destinations⟩

/-- Embedding of `saveAppStatsToDB` (stats.go): skip entries with zero
packets; skip when the store is not initialized; otherwise
`StoreAppStats` (the subsequent `StoreProtocolStats` loop writes only
the protocol_stats table). -/
def saveAppStatsToDB (db : DBState) (a : AppStats) : DBState :=
  if a.totalPackets = 0 then db
  else if db.initialized = false then db
  else storeAppStats db (dbStatsOf a)

/-- Embedding of `SaveAllStatsToDB` (stats.go): iterate all entries,
skip those with zero packets, flush each (each flush is panic-guarded
in the source so one failure cannot halt the iteration). -/
def saveAllStatsToDB (db : DBState) (m : AppMap) : DBState :=
  m.foldl (fun acc kv => if kv.2.totalPackets = 0 then acc else saveAppStatsToDB acc kv.2) db

/-- C4 counterexample: two `updateAppStats` calls with the same process
name "app" but different pids 1 and 2 leave a single aggregator entry
(not two), and that entry retains the first call's ProcessID 1 — the
aggregator key is the process name alone, not (process_name,
process_id). -/
theorem updateAppStats_pid_key_counterexample :
    (updateAppStats (updateAppStats [] 1 "app" "p" "TCP" 10 "8.8.8.8")
        2 "app" "p" "TCP" 10 "8.8.8.8").length = 1
    ∧ (updateAppStats (updateAppStats [] 1 "app" "p" "TCP" 10 "8.8.8.8")
        2 "app" "p" "TCP" 10 "8.8.8.8").map (fun kv => kv.2.processID) = [1] := by
  constructor
  · decide
  · decide

/-- Looking up the key the keyed map update targeted yields its old
value with the update applied (positions are preserved, so the first
entry with that key stays first). -/
theorem lookup_map_keyed (m : AppMap) (key : String) (f : AppStats → AppStats) :
    (m.map fun kv => if kv.1 = key then (kv.1, f kv.2) else kv).lookup key =
      (m.lookup key).map f := by
  induction m with
  | nil => rfl
  | cons kv t ih =>
      obtain ⟨k, v⟩ := kv
      simp only [List.map_cons]
      by_cases h : k = key
      · subst h
        have hcond : ((k, v).1 = k) := rfl
        rw [if_pos hcond]
        simp [List.lookup]
      · have hbeq : (key == k) = false :=
          beq_eq_false_iff_ne.mpr fun hc => h hc.symm
        rw [if_neg h]
        simp [List.lookup, hbeq, ih]

/-- C4 amended: per-application rollups are keyed by process name
only.  Two `updateAppStats` calls carrying the same non-empty process
name but different process ids accumulate into one aggregator entry;
the entry retains the first call's ProcessID and counts both packets. -/
theorem updateAppStats_keyed_by_name (pid₁ pid₂ : Nat)
    (name path₁ path₂ proto₁ proto₂ : String) (b₁ b₂ : Nat) (d₁ d₂ : String)
    (h : name ≠ "") :
    ∃ a : AppStats,
      updateAppStats (updateAppStats [] pid₁ name path₁ proto₁ b₁ d₁)
          pid₂ name path₂ proto₂ b₂ d₂ = [(name, a)]
      ∧ a.processID = pid₁ ∧ a.totalPackets = 2 := by
  have h1 : updateAppStats [] pid₁ name path₁ proto₁ b₁ d₁ =
      [(name, applyAppUpdate (newAppStats pid₁ name path₁) proto₁ b₁ d₁)] := by
    simp [updateAppStats, h]
  rw [h1]
  refine ⟨applyAppUpdate (applyAppUpdate (newAppStats pid₁ name path₁) proto₁ b₁ d₁)
    proto₂ b₂ d₂, ?_, rfl, rfl⟩
  simp [updateAppStats, h, List.lookup]

/-- Witness for C4 amended at concrete inputs. -/
theorem updateAppStats_keyed_by_name_witness :
    ∃ a : AppStats,
      updateAppStats (updateAppStats [] 1 "app" "p1" "TCP" 10 "8.8.8.8")
          2 "app" "p2" "UDP" 20 "1.1.1.1" = [("app", a)]
      ∧ a.processID = 1 ∧ a.totalPackets = 2 :=
  updateAppStats_keyed_by_name 1 2 "app" "p1" "p2" "TCP" "UDP" 10 20
    "8.8.8.8" "1.1.1.1" (by decide)

/-- The destination-set health of one entry: no duplicates and no
empty string. -/
def destsOK (a : AppStats) : Prop :=
  a.destinations.Nodup ∧ "" ∉ a.destinations

/-- Set insertion of a non-empty destination preserves destination-set
health. -/
theorem insertDestination_destsOK (ds : List String) (d : String)
    (hnd : ds.Nodup) (hne : "" ∉ ds) (hd : d ≠ "") :
    (insertDestination ds d).Nodup ∧ "" ∉ insertDestination ds d := by
  unfold insertDestination
  split
  · exact ⟨hnd, hne⟩
  · rename_i hmem
    constructor
    · refine List.Nodup.append hnd (List.nodup_singleton d) ?_
      intro x hx hxd
      rw [List.mem_singleton] at hxd
      exact hmem (hxd ▸ hx)
    · intro hc
      rcases List.mem_append.mp hc with hin | hin
      · exact hne hin
      · rw [List.mem_singleton] at hin
        exact hd hin.symm

/-- One entry update preserves destination-set health. -/
theorem applyAppUpdate_destsOK (a : AppStats) (proto : String) (bytes : Nat)
    (dest : String) (h : destsOK a) : destsOK (applyAppUpdate a proto bytes dest) := by
  obtain ⟨hnd, hne⟩ := h
  unfold destsOK applyAppUpdate
  by_cases hd : dest = ""
  · simpa [hd] using ⟨hnd, hne⟩
  · simpa [hd] using insertDestination_destsOK a.destinations dest hnd hne hd

/-- `updateAppStats` preserves destination-set health of every entry. -/
theorem updateAppStats_destsOK (m : AppMap) (pid : Nat)
    (name path proto : String) (bytes : Nat) (dest : String)
    (hm : ∀ kv ∈ m, destsOK kv.2) :
    ∀ kv ∈ updateAppStats m pid name path proto bytes dest, destsOK kv.2 := by
  unfold updateAppStats
  split
  · exact hm
  · cases hlk : m.lookup name with
    | some a =>
        simp only [hlk]
        intro kv hkv
        rw [List.mem_map] at hkv
        obtain ⟨orig, horig, hkveq⟩ := hkv
        by_cases hk : orig.1 = name
        · rw [if_pos hk] at hkveq
          rw [← hkveq]
          exact applyAppUpdate_destsOK orig.2 proto bytes dest (hm orig horig)
        · rw [if_neg hk] at hkveq
          rw [← hkveq]
          exact hm orig horig
    | none =>
        simp only [hlk]
        intro kv hkv
        rcases List.mem_append.mp hkv with hin | hin
        · exact hm kv hin
        · rw [List.mem_singleton] at hin
          rw [hin]
          refine applyAppUpdate_destsOK _ proto bytes dest ?_
          exact ⟨List.nodup_nil, List.not_mem_nil ""⟩

/-- Unfolding one call of a call sequence. -/
theorem runAppUpdates_cons (m : AppMap) (c : AppUpdate) (calls : List AppUpdate) :
    runAppUpdates m (c :: calls) =
      runAppUpdates (updateAppStats m c.processID c.processName c.processPath
        c.protocol c.bytes c.destination) calls := rfl

/-- Any sequence of updates preserves destination-set health. -/
theorem runAppUpdates_destsOK (calls : List AppUpdate) :
    ∀ m : AppMap, (∀ kv ∈ m, destsOK kv.2) →
      ∀ kv ∈ runAppUpdates m calls, destsOK kv.2 := by
  induction calls with
  | nil => exact fun m hm => hm
  | cons c rest ih =>
      intro m hm
      rw [runAppUpdates_cons]
      exact ih _ (updateAppStats_destsOK m c.processID c.processName c.processPath
        c.protocol c.bytes c.destination hm)

/-- An update on a one-entry map whose key is the call's (non-empty)
process name updates that entry in place. -/
theorem updateAppStats_single (name : String) (h : name ≠ "") (a : AppStats)
    (pid : Nat) (path proto : String) (bytes : Nat) (dest : String) :
    updateAppStats [(name, a)] pid name path proto bytes dest
      = [(name, applyAppUpdate a proto bytes dest)] := by
  simp [updateAppStats, h, List.lookup]

/-- Repeating the same call on a one-entry map whose destination set is
already the singleton of that call's destination keeps the singleton. -/
theorem runAppUpdates_replicate_single (c : AppUpdate) (h : c.processName ≠ "") :
    ∀ (k : Nat) (a : AppStats), a.destinations = [c.destination] →
      ∃ b : AppStats,
        runAppUpdates [(c.processName, a)] (List.replicate k c) = [(c.processName, b)]
        ∧ b.destinations = [c.destination] := by
  intro k
  induction k with
  | zero => exact fun a ha => ⟨a, rfl, ha⟩
  | succ n ih =>
      intro a ha
      rw [List.replicate_succ, runAppUpdates_cons,
        updateAppStats_single c.processName h a c.processID c.processPath
          c.protocol c.bytes c.destination]
      apply ih
      by_cases hd : c.destination = ""
      · simp [applyAppUpdate, hd, ha]
      · simp [applyAppUpdate, hd, ha, insertDestination]

/-- C9: the per-application destination set contains no duplicates and
never contains the empty string (after any sequence of `updateAppStats`
calls from an empty aggregator); N repetitions of the same call with
the same non-empty destination X leave exactly one entry X in the set;
a call with destination "" leaves an existing entry's set unchanged;
and the value serialized to the destinations column is exactly the
entry's collected set of unique strings. -/
theorem destinations_set_invariants :
    (∀ calls : List AppUpdate, ∀ kv ∈ runAppUpdates [] calls,
        kv.2.destinations.Nodup ∧ "" ∉ kv.2.destinations)
    ∧ (∀ c : AppUpdate, c.processName ≠ "" → c.destination ≠ "" →
        ∀ N : Nat, 1 ≤ N →
          ∃ b : AppStats,
            runAppUpdates [] (List.replicate N c) = [(c.processName, b)]
            ∧ b.destinations.count c.destination = 1)
    ∧ (∀ (m : AppMap) (pid : Nat) (name path proto : String) (bytes : Nat)
        (a : AppStats), name ≠ "" → m.lookup name = some a →
        (updateAppStats m pid name path proto bytes "").lookup name
            = some (applyAppUpdate a proto bytes "")
        ∧ (applyAppUpdate a proto bytes "").destinations = a.destinations)
    ∧ (∀ a : AppStats, (dbStatsOf a).destinations = a.destinations) := by
  refine ⟨?_, ?_, ?_, fun a => rfl⟩
  · intro calls
    exact runAppUpdates_destsOK calls [] (by intro kv hkv; cases hkv)
  · intro c hname hd N hN
    obtain ⟨k, rfl⟩ : ∃ k, N = k + 1 := ⟨N - 1, by omega⟩
    rw [List.replicate_succ, runAppUpdates_cons]
    have h0 : updateAppStats [] c.processID c.processName c.processPath
        c.protocol c.bytes c.destination =
        [(c.processName, applyAppUpdate
          (newAppStats c.processID c.processName c.processPath)
          c.protocol c.bytes c.destination)] := by
      simp [updateAppStats, hname]
    rw [h0]
    have hdest : (applyAppUpdate (newAppStats c.processID c.processName c.processPath)
        c.protocol c.bytes c.destination).destinations = [c.destination] := by
      simp [applyAppUpdate, newAppStats, insertDestination, hd]
    obtain ⟨b, hb, hbd⟩ := runAppUpdates_replicate_single c hname k _ hdest
    refine ⟨b, hb, ?_⟩
    rw [hbd]
    simp
  · intro m pid name path proto bytes a hname hlk
    constructor
    · unfold updateAppStats
      rw [if_neg hname]
      simp only [hlk]
      rw [lookup_map_keyed m name (fun s => applyAppUpdate s proto bytes ""), hlk]
      rfl
    · simp [applyAppUpdate]

/-- Witness for C9 at concrete inputs: three identical updates for
"curl" with destination "8.8.8.8" yield one entry whose set counts
"8.8.8.8" exactly once. -/
theorem destinations_set_invariants_witness :
    ∃ b : AppStats,
      runAppUpdates [] (List.replicate 3 ⟨42, "curl", "C:\\curl.exe", "TCP", 120, "8.8.8.8"⟩)
        = [("curl", b)]
      ∧ b.destinations.count "8.8.8.8" = 1 :=
  destinations_set_invariants.2.1
    ⟨42, "curl", "C:\\curl.exe", "TCP", 120, "8.8.8.8"⟩
    (by decide) (by decide) 3 (by decide)

/-- The persisted `application_stats` state agrees with the values
`(tp, tb, ds)` under key `(name, pid)`: some row matches the key, and
every matching row carries exactly those totals and destinations. -/
def rowsCorrect (db : DBState) (name : String) (pid tp tb : Nat)
    (ds : List String) : Prop :=
  (∃ r ∈ db.appRows, appRowKeyMatches name pid r = true)
  ∧ ∀ r ∈ db.appRows, appRowKeyMatches name pid r = true →
      r.totalPackets = tp ∧ r.totalBytes = tb ∧ r.destinations = ds

/-- A key match forces the row's name. -/
theorem appRowKeyMatches_name (name : String) (pid : Nat) (r : AppRow)
    (h : appRowKeyMatches name pid r = true) : r.processName = name := by
  unfold appRowKeyMatches at h
  rw [Bool.and_eq_true] at h
  exact eq_of_beq h.1

/-- The UPDATE arm rewrites values but never the key columns. -/
theorem updateAppRow_key (r s : AppRow) (name : String) (pid : Nat) :
    appRowKeyMatches name pid (updateAppRow r s) = appRowKeyMatches name pid r := rfl

/-- `StoreAppStats` does not change the initialization flag. -/
theorem storeAppStats_initialized (db : DBState) (s : AppRow) :
    (storeAppStats db s).initialized = db.initialized := by
  unfold storeAppStats
  split
  · rfl
  · split <;> rfl

/-- `saveAppStatsToDB` does not change the initialization flag. -/
theorem saveAppStatsToDB_initialized (db : DBState) (a : AppStats) :
    (saveAppStatsToDB db a).initialized = db.initialized := by
  unfold saveAppStatsToDB
  split
  · rfl
  · split
    · rfl
    · exact storeAppStats_initialized db (dbStatsOf a)

/-- `SaveAllStatsToDB` does not change the initialization flag. -/
theorem saveAllStatsToDB_initialized (m : AppMap) :
    ∀ db : DBState, (saveAllStatsToDB db m).initialized = db.initialized := by
  induction m with
  | nil => exact fun _ => rfl
  | cons kv t ih =>
      intro db
      show (saveAllStatsToDB
        (if kv.2.totalPackets = 0 then db else saveAppStatsToDB db kv.2) t).initialized = _
      rw [ih]
      split
      · rfl
      · exact saveAppStatsToDB_initialized db kv.2

/-- A matched row's image under the UPDATE map is the updated row. -/
theorem mem_map_update_of_match (l : List AppRow) (s r : AppRow) (hr : r ∈ l)
    (hm : appRowKeyMatches s.processName s.processID r = true) :
    updateAppRow r s ∈ l.map fun r =>
      if appRowKeyMatches s.processName s.processID r = true then updateAppRow r s else r := by
  have h := List.mem_map_of_mem
    (fun r => if appRowKeyMatches s.processName s.processID r = true
      then updateAppRow r s else r) hr
  simpa [hm] using h

/-- An unmatched row passes through the UPDATE map unchanged. -/
theorem mem_map_update_of_nomatch (l : List AppRow) (s r : AppRow) (hr : r ∈ l)
    (hm : appRowKeyMatches s.processName s.processID r = false) :
    r ∈ l.map fun r =>
      if appRowKeyMatches s.processName s.processID r = true then updateAppRow r s else r := by
  have h := List.mem_map_of_mem
    (fun r => if appRowKeyMatches s.processName s.processID r = true
      then updateAppRow r s else r) hr
  simpa [hm] using h

/-- After `StoreAppStats` on an initialized store, the rows are correct
for the stored values under the stored key (UPDATE when a row matched,
INSERT otherwise). -/
theorem storeAppStats_establishes (db : DBState) (s : AppRow)
    (hinit : db.initialized = true) :
    rowsCorrect (storeAppStats db s) s.processName s.processID
      s.totalPackets s.totalBytes s.destinations := by
  unfold storeAppStats
  rw [hinit]
  simp only [Bool.true_eq_false, if_false]
  by_cases hany : db.appRows.any fun r => appRowKeyMatches s.processName s.processID r
  · rw [if_pos hany]
    rw [List.any_eq_true] at hany
    obtain ⟨r, hr, hrm⟩ := hany
    constructor
    · exact ⟨updateAppRow r s, mem_map_update_of_match db.appRows s r hr hrm,
        by rw [updateAppRow_key]; exact hrm⟩
    · intro r₁ hr₁ hm₁
      rw [List.mem_map] at hr₁
      obtain ⟨r₀, hr₀, hr₀eq⟩ := hr₁
      by_cases h₀ : appRowKeyMatches s.processName s.processID r₀ = true
      · rw [if_pos h₀] at hr₀eq
        rw [← hr₀eq]
        exact ⟨rfl, rfl, rfl⟩
      · rw [if_neg h₀] at hr₀eq
        rw [← hr₀eq] at hm₁
        exact absurd hm₁ h₀
  · rw [if_neg hany]
    constructor
    · refine ⟨s, List.mem_append_right _ (List.mem_singleton_self s), ?_⟩
      simp [appRowKeyMatches]
    · intro r hr hm
      rcases List.mem_append.mp hr with hin | hin
      · rw [List.any_eq_true] at hany
        exact absurd ⟨r, hin, hm⟩ hany
      · rw [List.mem_singleton] at hin
        rw [hin]
        exact ⟨rfl, rfl, rfl⟩

/-- `StoreAppStats` under a different process name leaves the rows
matching `(name, pid)` correct. -/
theorem storeAppStats_preserves (db : DBState) (s : AppRow) (name : String)
    (pid tp tb : Nat) (ds : List String) (hname : s.processName ≠ name)
    (h : rowsCorrect db name pid tp tb ds) :
    rowsCorrect (storeAppStats db s) name pid tp tb ds := by
  obtain ⟨⟨w, hw, hwm⟩, hall⟩ := h
  have hkeydiff : ∀ r : AppRow, appRowKeyMatches name pid r = true →
      appRowKeyMatches s.processName s.processID r = false := by
    intro r hr
    have h₁ : r.processName = name := appRowKeyMatches_name name pid r hr
    rw [Bool.eq_false_iff]
    intro hc
    have h₂ := appRowKeyMatches_name s.processName s.processID r hc
    exact hname (by rw [← h₂, h₁])
  unfold storeAppStats
  split
  · exact ⟨⟨w, hw, hwm⟩, hall⟩
  · split
    · constructor
      · exact ⟨w, mem_map_update_of_nomatch db.appRows s w hw (hkeydiff w hwm), hwm⟩
      · intro r hr hm
        rw [List.mem_map] at hr
        obtain ⟨r₀, hr₀, hr₀eq⟩ := hr
        by_cases h₀ : appRowKeyMatches s.processName s.processID r₀ = true
        · rw [if_pos h₀] at hr₀eq
          rw [← hr₀eq, updateAppRow_key] at hm
          have := hkeydiff r₀ hm
          rw [h₀] at this
          cases this
        · rw [if_neg h₀] at hr₀eq
          rw [← hr₀eq]
          exact hall r₀ hr₀ (hr₀eq ▸ hm)
    · constructor
      · exact ⟨w, List.mem_append_left _ hw, hwm⟩
      · intro r hr hm
        rcases List.mem_append.mp hr with hin | hin
        · exact hall r hin hm
        · rw [List.mem_singleton] at hin
          rw [hin] at hm
          have hs : s.processName = name := appRowKeyMatches_name name pid s hm
          exact absurd hs hname

/-- `saveAppStatsToDB` under a different process name preserves row
correctness. -/
theorem saveAppStatsToDB_preserves (db : DBState) (a : AppStats) (name : String)
    (pid tp tb : Nat) (ds : List String) (hname : a.processName ≠ name)
    (h : rowsCorrect db name pid tp tb ds) :
    rowsCorrect (saveAppStatsToDB db a) name pid tp tb ds := by
  unfold saveAppStatsToDB
  split
  · exact h
  · split
    · exact h
    · exact storeAppStats_preserves db (dbStatsOf a) name pid tp tb ds hname h

/-- `SaveAllStatsToDB` over entries with different process names
preserves row correctness. -/
theorem saveAllStatsToDB_preserves (m : AppMap) :
    ∀ db : DBState, ∀ (name : String) (pid tp tb : Nat) (ds : List String),
      (∀ kv ∈ m, kv.2.processName ≠ name) →
      rowsCorrect db name pid tp tb ds →
      rowsCorrect (saveAllStatsToDB db m) name pid tp tb ds := by
  induction m with
  | nil => exact fun db name pid tp tb ds _ h => h
  | cons kv t ih =>
      intro db name pid tp tb ds hnames h
      show rowsCorrect (saveAllStatsToDB
        (if kv.2.totalPackets = 0 then db else saveAppStatsToDB db kv.2) t) name pid tp tb ds
      refine ih _ name pid tp tb ds (fun kv₁ h₁ => hnames kv₁ (List.mem_cons_of_mem kv h₁)) ?_
      split
      · exact h
      · exact saveAppStatsToDB_preserves db kv.2 name pid tp tb ds
          (hnames kv (List.mem_cons_self kv t)) h

/-- C2: aggregator-to-store equivalence after a full flush.  For an
initialized store and an aggregator map with distinct keys whose
entries carry their key as process name (both invariants of the
`sync.Map` keyed by process name), every entry `A` with a nonzero
packet count ends up, after `SaveAllStatsToDB`, with a persisted
`application_stats` row matching `(A.processName, A.processID)` whose
`total_packets`, `total_bytes` and destinations equal the in-memory
values — the flush writes absolute values via update-then-insert. -/
theorem saveAllStatsToDB_equivalence (db : DBState) (m : AppMap) (A : AppStats)
    (hinit : db.initialized = true)
    (hnd : (m.map Prod.fst).Nodup)
    (hnames : ∀ kv ∈ m, kv.2.processName = kv.1)
    (hmem : (A.processName, A) ∈ m)
    (hnz : A.totalPackets ≠ 0) :
    rowsCorrect (saveAllStatsToDB db m) A.processName A.processID
      A.totalPackets A.totalBytes A.destinations := by
  induction m generalizing db with
  | nil => cases hmem
  | cons kv t ih =>
      rcases List.mem_cons.mp hmem with heq | hmem₁
      · have hkv2 : kv.2 = A := by rw [← heq]
        have hkv1 : kv.1 = A.processName := by rw [← heq]
        show rowsCorrect (saveAllStatsToDB
          (if kv.2.totalPackets = 0 then db else saveAppStatsToDB db kv.2) t) _ _ _ _ _
        rw [hkv2, if_neg hnz]
        have hdb₁ : rowsCorrect (saveAppStatsToDB db A) A.processName A.processID
            A.totalPackets A.totalBytes A.destinations := by
          unfold saveAppStatsToDB
          rw [if_neg hnz, hinit]
          simp only [Bool.true_eq_false, if_false]
          exact storeAppStats_establishes db (dbStatsOf A) hinit
        refine saveAllStatsToDB_preserves t (saveAppStatsToDB db A) A.processName
          A.processID A.totalPackets A.totalBytes A.destinations ?_ hdb₁
        intro kv₁ h₁
        rw [hnames kv₁ (List.mem_cons_of_mem kv h₁)]
        rw [List.map_cons, List.nodup_cons] at hnd
        intro hc
        apply hnd.1
        rw [hkv1, ← hc]
        exact List.mem_map_of_mem Prod.fst h₁
      · show rowsCorrect (saveAllStatsToDB
          (if kv.2.totalPackets = 0 then db else saveAppStatsToDB db kv.2) t) _ _ _ _ _
        have hinit₁ : (if kv.2.totalPackets = 0 then db
            else saveAppStatsToDB db kv.2).initialized = true := by
          split
          · exact hinit
          · rw [saveAppStatsToDB_initialized]
            exact hinit
        rw [List.map_cons, List.nodup_cons] at hnd
        exact ih _ hinit₁ hnd.2
          (fun kv₁ h₁ => hnames kv₁ (List.mem_cons_of_mem kv h₁)) hmem₁

/-- Witness for C2 at concrete inputs: flushing a one-entry aggregator
("curl", pid 42, 3 packets, 120 bytes) into an empty initialized store
leaves a matching row with those absolute values. -/
theorem saveAllStatsToDB_equivalence_witness :
    rowsCorrect
      (saveAllStatsToDB ⟨true, []⟩
        [("curl", ⟨42, "curl", "C:\\curl.exe", 3, 120, [("TCP", 3)], ["8.8.8.8"]⟩)])
      "curl" 42 3 120 ["8.8.8.8"] :=
  saveAllStatsToDB_equivalence ⟨true, []⟩
    [("curl", ⟨42, "curl", "C:\\curl.exe", 3, 120, [("TCP", 3)], ["8.8.8.8"]⟩)]
    ⟨42, "curl", "C:\\curl.exe", 3, 120, [("TCP", 3)], ["8.8.8.8"]⟩
    rfl (by decide) (by decide) (by decide) (by decide)

end Grip
